import Mathlib

/-!
# Verification of the moleculer-go HTTP gateway (`gateway.go`)

A shallow embedding of the whitelist matcher, alias resolver, route-table
builder, HTTP action handler and hot-reload server lifecycle of
`src/gateway.go`, together with theorems settling the frozen claims about it.

External collaborators (the Go standard library's `strings`/`regexp`
functions, the moleculer RPC call, the JSON codec) are embedded as explicit
Lean functions or oracle parameters; each such embedding carries a doc
comment stating exactly which library behaviour it captures.
-/

set_option autoImplicit false

namespace Gateway

/-! ## Go standard-library string operations used by the gateway -/

/-- Embeds `strings.Replace(s, ".", "/", -1)` (as applied to the dotted action
name in `actionHandler.pattern`): the pattern is a single character, so the
left-to-right non-overlapping replacement is exactly a character map. -/
def replaceDotBySlash (cs : List Char) : List Char :=
  cs.map fun c => if c = '.' then '/' else c

/-- Embeds `strings.Replace(s, "//", "/", -1)` from `actionHandler.pattern`:
one left-to-right pass that replaces each non-overlapping occurrence of `"//"`
by `"/"` and continues scanning after the replaced occurrence (so `"///"`
becomes `"//"`, not `"/"`). -/
def collapseDoubleSlash : List Char → List Char
  | [] => []
  | [c] => [c]
  | c1 :: c2 :: rest =>
    if c1 = '/' ∧ c2 = '/' then '/' :: collapseDoubleSlash rest
    else c1 :: collapseDoubleSlash (c2 :: rest)

/-- `true` iff `pat` occurs as a contiguous run inside `cs`. -/
def containsSeq (pat : List Char) : List Char → Bool
  | [] => pat.isEmpty
  | c :: rest => pat.isPrefixOf (c :: rest) || containsSeq pat rest

/-- `true` iff the character list contains two consecutive `'/'`. -/
def hasDoubleSlash : List Char → Bool
  | c1 :: c2 :: rest => (c1 == '/' && c2 == '/') || hasDoubleSlash (c2 :: rest)
  | _ => false

/-- `true` iff the character list contains three consecutive `'/'`. -/
def hasTripleSlash : List Char → Bool
  | c1 :: c2 :: c3 :: rest =>
    (c1 == '/' && c2 == '/' && c3 == '/') || hasTripleSlash (c2 :: c3 :: rest)
  | _ => false

/-- The white-space characters Go's `strings.TrimSpace` removes, restricted
to ASCII (the gateway's alias strings; the remaining `unicode.IsSpace`
characters are exotic code points no configuration uses). -/
def isGoSpace (c : Char) : Bool :=
  c == ' ' || c == '\t' || c == '\n' || c == '\x0b' || c == '\x0c' || c == '\r'

/-- Embeds `strings.TrimSpace`: drop white space from both ends. -/
def trimChars (cs : List Char) : List Char :=
  ((cs.dropWhile isGoSpace).reverse.dropWhile isGoSpace).reverse

/-- Embeds `strings.Split(s, " ")`: split at every single space, keeping
empty fields; the split of the empty string is one empty field. -/
def splitOnSpace : List Char → List (List Char)
  | [] => [[]]
  | c :: rest =>
    let r := splitOnSpace rest
    if c = ' ' then [] :: r
    else (c :: r.headD []) :: r.tail

/-- `strings.Split(strings.TrimSpace(s), " ")` as used on alias strings in
`aliasPath` and `acceptedMethods`. -/
def splitAlias (s : String) : List String :=
  (splitOnSpace (trimChars s.toList)).map fun cs => ⟨cs⟩

/-- Embeds `strings.ToUpper` on the alias method token.  Go performs full
Unicode case mapping; on the ASCII strings compared against `validMethods`
it agrees with `Char.toUpper` applied characterwise. -/
def goToUpper (s : String) : String :=
  ⟨s.toList.map Char.toUpper⟩

/-- The elements of a string list joined by single spaces. -/
def joinBySpace : List String → String
  | [] => ""
  | [x] => x
  | x :: rest => x ++ " " ++ joinBySpace rest

/-- Embeds Go's `fmt` `%s` rendering of a string slice: the elements joined
by single spaces, between square brackets. -/
def goFormatStringSlice (l : List String) : String :=
  "[" ++ joinBySpace l ++ "]"

/-! ## The three compiled regular expressions

`gateway.go` compiles three fixed regular expressions once:

* `actionWildCardRegex  = (.+)\.\*`
* `serviceWildCardRegex = \*\.(.+)`
* `serviceActionRegex   = (.+)\.(.+)`

and calls `FindStringSubmatch` on them.  Go's `regexp` package implements
leftmost-first (Perl-style) matching: the match starts as early as possible
in the subject, and among the matches at that start the one a backtracking
search would find first wins, so a greedy `(.+)` takes the longest extent
that still lets the rest of the pattern match.  For each of the three fixed
patterns this pins the submatches down to a simple positional description,
which is what the functions below compute. -/

/-- Indices `k` of the subject at which `(.+)\.(.+)` can place its literal
dot: `cs.get k = '.'` with at least one character before and after. -/
def midDotPositions (cs : List Char) : List Nat :=
  (List.range cs.length).filter fun k =>
    decide (1 ≤ k) && (cs.getD k ' ' == '.') && decide (k + 1 < cs.length)

/-- `FindStringSubmatch` of `serviceActionRegex = (.+)\.(.+)`, returning the
two capture groups.  A match exists iff some `'.'` has a character on both
sides; the leftmost match starts at index 0 and the greedy first group ends
at the *last* such dot, so group 1 is everything before that dot and group 2
everything after it. -/
def serviceActionSubmatch (s : String) : Option (String × String) :=
  match (midDotPositions s.toList).getLast? with
  | some k => some (⟨s.toList.take k⟩, ⟨s.toList.drop (k + 1)⟩)
  | none => none

/-- Indices `k` of the subject at which `(.+)\.\*` can place its literal
`".*"` suffix: `cs.get k = '.'`, `cs.get (k+1) = '*'`, with at least one
character before index `k`.  (Out-of-range reads use a default that matches
neither `'.'` nor `'*'`.) -/
def dotStarPositions (cs : List Char) : List Nat :=
  (List.range cs.length).filter fun k =>
    decide (1 ≤ k) && (cs.getD k ' ' == '.') && (cs.getD (k + 1) ' ' == '*')

/-- `FindStringSubmatch` of `actionWildCardRegex = (.+)\.\*`, returning the
capture group.  The leftmost match starts at index 0 and the greedy `(.+)`
extends to the *last* position where literal `".*"` follows, so group 1 is
everything before that position. -/
def actionWildCardSubmatch (item : String) : Option String :=
  ((dotStarPositions item.toList).getLast?).map fun k => ⟨item.toList.take k⟩

/-- Indices `i` of the subject at which `\*\.(.+)` can start: literal `"*."`
at `i` with at least one character after it. -/
def starDotPositions (cs : List Char) : List Nat :=
  (List.range cs.length).filter fun i =>
    (cs.getD i ' ' == '*') && (cs.getD (i + 1) ' ' == '.') &&
      decide (i + 2 < cs.length)

/-- `FindStringSubmatch` of `serviceWildCardRegex = \*\.(.+)`, returning the
capture group.  The leftmost match starts at the *first* occurrence of
literal `"*."` that has a character after it, and the greedy `(.+)` runs to
the end of the subject. -/
def serviceWildCardSubmatch (item : String) : Option String :=
  ((starDotPositions item.toList).head?).map fun i => ⟨item.toList.drop (i + 2)⟩

/-! ## The whitelist matcher -/

/-- The dynamic regular-expression fallback of `shouldInclude`
(`regexp.Compile(item)` followed by `itemRegex.MatchString(action)`) is a call
into Go's regex engine on an arbitrary pattern string.  We embed it as an
oracle parameter `rx : String → String → Option Bool`: `rx item action = none`
models a pattern that fails to compile (the rule is skipped), and
`some b` models a successful compilation whose unanchored `MatchString`
returns `b`. -/
def regexFallback (rx : String → String → Option Bool)
    (item action : String) : Bool :=
  match rx item action with
  | some b => b
  | none => false

/-- The per-pattern body of the `shouldInclude` loop (lines 29–53 of
`gateway.go`): the four conditions that make the iteration `return true`,
tried in source order.  Since each condition either returns `true` or falls
through to the next, the body is their boolean disjunction. -/
def itemMatchesAction (rx : String → String → Option Bool)
    (item action : String) : Bool :=
  (item == "**" || item == "*.*")
  || (match actionWildCardSubmatch item with
      | some whitelistService =>
        whitelistService != "" &&
          (match serviceActionSubmatch action with
           | some actionService => actionService.1 == whitelistService
           | none => false)
      | none => false)
  || (match serviceWildCardSubmatch item with
      | some whitelistAction =>
        whitelistAction != "" &&
          (match serviceActionSubmatch action with
           | some actionName => actionName.2 == whitelistAction
           | none => false)
      | none => false)
  || regexFallback rx item action

/-- `shouldInclude` (gateway.go lines 28–55): the action is included iff some
whitelist entry matches it; the first matching entry short-circuits, which
for a pure predicate is `List.any`.  The oracle `rx` embeds the dynamic
regex compilation, see `regexFallback`. -/
def shouldInclude (rx : String → String → Option Bool)
    (whitelist : List String) (action : String) : Bool :=
  whitelist.any fun item => itemMatchesAction rx item action

/-- Concrete oracle for the only dynamically compiled pattern the theorems
below exercise: Go's `regexp.Compile("math.*")` succeeds, and since
`MatchString` is unanchored and `.*` matches any (possibly empty) run of
characters, the compiled regex matches a subject iff the subject contains
`"math"` as a contiguous substring.  Patterns other than `"math.*"` are not
queried by any theorem in this file; the oracle conservatively reports them
as skipped. -/
def mathStarOracle (item action : String) : Option Bool :=
  if item = "math.*" then some (containsSeq "math".toList action.toList)
  else none

/-! ## Action handlers

`actionHandler` (gateway.go lines 57–63) carries the route path, the alias
string looked up for the action (empty when the action has none), and the
dotted action name.  The `context` field is the RPC collaborator (an oracle
parameter of `ServeHTTP` here) and `acceptedMethodsCache` memoizes the pure
`acceptedMethods` computation, so both are omitted from the state. -/

structure actionHandler where
  routePath : String
  aliasStr : String
  action : String
deriving DecidableEq

/-- `actionHandler.aliasPath` (lines 66–80).  The Go function panics on an
alias that splits into three or more tokens; the panic is modelled as
`Except.error` carrying the panic message. -/
def actionHandler.aliasPath (handler : actionHandler) : Except String String :=
  if handler.aliasStr ≠ "" then
    let parts := splitAlias handler.aliasStr
    if parts.length = 1 then .ok (parts.headD "")
    else if parts.length = 2 then .ok (parts.getD 1 "")
    else .error ("Invalid alias format! -> " ++ handler.aliasStr)
  else .ok ""

/-- The local `fullPath` of `actionHandler.pattern` (lines 83–91): route path
and alias path (or dotted action name with `.` replaced by `/`) joined by a
single `/` via `fmt.Sprint`. -/
def actionHandler.patternFullPath (handler : actionHandler) :
    Except String String :=
  match handler.aliasPath with
  | .error e => .error e
  | .ok aliasPath =>
    if aliasPath ≠ "" then
      .ok (handler.routePath ++ "/" ++ aliasPath)
    else
      .ok (handler.routePath ++ "/" ++ ⟨replaceDotBySlash handler.action.toList⟩)

/-- `actionHandler.pattern` (lines 83–93): the full path with one
`strings.Replace(fullPath, "//", "/", -1)` pass applied. -/
def actionHandler.pattern (handler : actionHandler) : Except String String :=
  match handler.patternFullPath with
  | .error e => .error e
  | .ok fullPath => .ok ⟨collapseDoubleSlash fullPath.toList⟩

/-- `validMethods` (line 95). -/
def validMethods : List String := ["GET", "POST", "PUT", "DELETE"]

/-- `validMethod` (lines 97–104): linear scan of `validMethods`. -/
def validMethod (method : String) : Bool :=
  validMethods.contains method

/-- `actionHandler.acceptedMethods` (lines 107–130), with the memoizing cache
modelled transparently (the cache only ever stores the value computed here).
The Go function returns a `map[string]bool`; we model the map by its key
list.  `strings.ToUpper` is Unicode case mapping in Go; on the ASCII method
names compared against `validMethods` it agrees with `String.toUpper`. -/
def actionHandler.acceptedMethods (handler : actionHandler) : List String :=
  if handler.aliasStr ≠ "" then
    let parts := splitAlias handler.aliasStr
    if parts.length = 2 ∧ validMethod (goToUpper (parts.headD "")) then
      [goToUpper (parts.headD "")]
    else ["GET", "POST", "PUT", "DELETE"]
  else ["GET", "POST", "PUT", "DELETE"]

/-! ## Payloads and HTTP responses

`moleculer.Payload` is an external collaborator; the gateway only ever asks
it `IsError()` and hands it to the JSON serializer.  We model a payload as
either a success value or an error, both carrying opaque text. -/

inductive Payload where
  | value (data : String)
  | err (msg : String)
deriving DecidableEq

/-- `Payload.IsError()` of the moleculer payload collaborator. -/
def Payload.IsError : Payload → Bool
  | .value _ => false
  | .err _ => true

def succesStatusCode : Nat := 200
def errorStatusCode : Nat := 500
def resultParseErrorStatusCode : Nat := 500

/-- What the gateway writes to the `http.ResponseWriter`: a status code and
the payload handed to the JSON serializer (serialization itself is the codec
collaborator and is kept symbolic). -/
structure HttpResponse where
  status : Nat
  body : Payload
deriving DecidableEq

/-- `sendReponse` (lines 147–159): write status 500 if the result payload is
an error, 200 otherwise, then write the serialized payload. -/
def sendReponse (result : Payload) : HttpResponse :=
  { status := if result.IsError then errorStatusCode else succesStatusCode
    body := result }

/-- `invalidHttpMethodError` (lines 133–140): builds an error payload naming
the accepted methods (`fmt.Errorf` text with Go's `%s` rendering of the key
slice) and sends it through `sendReponse`; `payload.New` of a Go `error`
value is an error payload. -/
def invalidHttpMethodError (methods : List String) : HttpResponse :=
  sendReponse (.err ("Invalid HTTP Method - accepted methods: " ++
    goFormatStringSlice methods))

/-- `actionHandler.ServeHTTP` (lines 195–218).  The RPC call
`<-handler.context.Call(handler.action, params)` is the oracle `call`; the
extracted request parameters (`paramsFromRequest`, which merges form values
or falls back to the codec) are the oracle `params`.  The result is `some`
response when the handler writes one, and `none` when the handler body
writes nothing at all (which is what the Go switch does when the method is
one of the four cases but the accepted-method lookup is false — control
falls off the end of `ServeHTTP` without touching the `ResponseWriter`). -/
def actionHandler.ServeHTTP (handler : actionHandler)
    (call : String → Payload → Payload) (params : Payload)
    (method : String) : Option HttpResponse :=
  let methods := handler.acceptedMethods
  if method = "GET" then
    if methods.contains "GET" then some (sendReponse (call handler.action params))
    else none
  else if method = "POST" then
    if methods.contains "POST" then some (sendReponse (call handler.action params))
    else none
  else if method = "PUT" then
    if methods.contains "PUT" then some (sendReponse (call handler.action params))
    else none
  else if method = "DELETE" then
    if methods.contains "DELETE" then some (sendReponse (call handler.action params))
    else none
  else some (invalidHttpMethodError methods)

/-! ## Route configuration and the route-table builder -/

/-- One entry of the `"routes"` settings list (a `map[string]interface{}` in
Go).  `path` is asserted unconditionally (`route["path"].(string)` panics if
missing, so a well-formed config always has it); `mappingPolicy`, `aliases`
and `whitelist` use `Option` for the comma-ok type assertions, with `none`
covering both an absent key and a value of the wrong dynamic type.  A Go
`map[string]string` is modelled as its entry list; Go map iteration order is
unspecified, so theorems below only use alias maps whose inversion is
order-independent. -/
structure Route where
  path : String
  mappingPolicy : Option String
  aliases : List (String × String)
  whitelist : Option (List String)

/-- `invertStringMap` (lines 220–226): build the value→key map; a duplicate
value makes the later entry (in iteration order) win, modelled by
delete-then-append on the entry list. -/
def invertStringMap (m : List (String × String)) : List (String × String) :=
  m.foldl (fun out kv => (out.filter fun e => e.1 != kv.2) ++ [(kv.2, kv.1)]) []

/-- `createActionHandlers` (lines 229–250): default the mapping policy to
`"all"`, invert the alias map, then for each action either skip it (no alias
and policy `"restrict"`) or build a handler whose alias is the looked-up
alias string (Go's zero value `""` when absent).  The append loop is
`List.filterMap`. -/
def createActionHandlers (route : Route) (actions : List String) :
    List actionHandler :=
  let routePath := route.path
  let mappingPolicy := route.mappingPolicy.getD "all"
  let aliases := route.aliases
  let actionToAlias := invertStringMap aliases
  actions.filterMap fun action =>
    match actionToAlias.lookup action with
    | none =>
      if mappingPolicy = "restrict" then none
      else some { routePath := routePath, aliasStr := "", action := action }
    | some actionAlias =>
      some { routePath := routePath, aliasStr := actionAlias, action := action }

/-- One service of the registry listing: its name and its actions' names
(`service["name"]`, `service["actions"][i]["name"]`). -/
structure ServiceEntry where
  name : String
  actions : List String

/-- `fetchServices` (lines 253–263).  The registry call
`<-context.Call("$node.services", ...)` is the oracle argument `reply`:
`Except.error` models a payload whose `IsError()` is true (then the error is
logged and the empty listing returned), `Except.ok` a successful listing
(`MapArray`). -/
def fetchServices (reply : Except String (List ServiceEntry)) :
    List ServiceEntry :=
  match reply with
  | .error _ => []
  | .ok services => services

/-- The gateway settings as far as `filterActions` reads them: the
`"routes"` list (`settings["routes"].([]map[string]interface{})`). -/
structure GatewaySettings where
  routes : List Route

/-- `filterActions` (lines 267–291): for each route in order, default the
whitelist to `["**"]` when absent, collect the full names of all listed
actions passing `shouldInclude`, and append the handlers
`createActionHandlers` builds for them.  The nested append loops are
`map`/`filterMap` followed by `flatten`. -/
def filterActions (rx : String → String → Option Bool)
    (settings : GatewaySettings) (services : List ServiceEntry) :
    List actionHandler :=
  (settings.routes.map fun route =>
    let whitelist := route.whitelist.getD ["**"]
    let filteredActions :=
      (services.map fun service =>
        service.actions.filterMap fun actionName =>
          let actionFullName := service.name ++ "." ++ actionName
          if shouldInclude rx whitelist actionFullName then some actionFullName
          else none).flatten
    createActionHandlers route filteredActions).flatten

/-! ## The server lifecycle (`resetHandlers`, gateway.go lines 430–461)

Two concurrent rebuild triggers (the `Started` hook and each
`$registry.service.added` / `service.removed` event spawn `go resetHandlers`)
run the same code:

```
if server != nil { server.Shutdown(nil) }   -- before the lock!
mutex.Lock()
address := getAddress(instance)
server = &http.Server{Addr: address}
...build router...
err := server.ListenAndServe()              -- blocks while listening
server = nil
mutex.Unlock()
```

We model a pair of triggers as an interleaving (sequentially consistent)
small-step system.  Each thread walks a program counter through the phases
of `resetHandlers`; the shared state is the package-level `server` slot, the
mutex, the set of servers currently inside their accept loop, and the set of
servers that have received a `Shutdown` request.  `http.Server.Shutdown`
before `ListenAndServe` makes the latter return `ErrServerClosed`
immediately, and a listening server leaves its accept loop once a
`Shutdown` request arrives — both are modelled explicitly.  Servers are
named by allocation order (`nextId`); all servers use the same address.
The fields `reqBy` and `serverOf` are ghost instrumentation: they record,
per thread, which server its pre-lock `Shutdown` call targeted and which
server it allocated; no transition reads them. -/

/-- Program counter of one rebuild trigger executing `resetHandlers`. -/
inductive TPC where
  /-- About to run `if server != nil { server.Shutdown(nil) }` (before the lock). -/
  | preShutdown
  /-- About to run `mutex.Lock()`. -/
  | lockAcq
  /-- Holding the mutex, about to resolve the address and allocate the new server into the slot. -/
  | buildStep
  /-- Holding the mutex, about to call `ListenAndServe()` on its server `sid`. -/
  | listenCall (sid : Nat)
  /-- Inside the accept loop of server `sid`, still holding the mutex. -/
  | listening (sid : Nat)
  /-- `ListenAndServe` returned; about to run `server = nil; mutex.Unlock()`. -/
  | cleanup
  /-- Done. -/
  | finished
deriving DecidableEq

/-- `true` on the phases executed while holding the rebuild mutex. -/
def TPC.inCrit : TPC → Bool
  | .buildStep | .listenCall _ | .listening _ | .cleanup => true
  | _ => false

/-- Shared state of the two-trigger lifecycle system; threads are named by
`Bool`. -/
structure LifecycleState where
  /-- The package-level `server` variable (`nil` or a server id). -/
  serverSlot : Option Nat
  /-- Which thread holds `mutex`, if any. -/
  mutexHeld : Option Bool
  /-- Servers currently inside `ListenAndServe`'s accept loop. -/
  listeningSet : List Nat
  /-- Servers that have received a `Shutdown` request. -/
  shutdownReq : List Nat
  /-- Program counter of each thread. -/
  threads : Bool → TPC
  /-- Next fresh server id. -/
  nextId : Nat
  /-- Ghost: the server this thread's pre-lock `Shutdown` targeted. -/
  reqBy : Bool → Option Nat
  /-- Ghost: the server this thread allocated. -/
  serverOf : Bool → Option Nat

/-- Interleaving transitions of the two-trigger system. -/
inductive LStep : LifecycleState → LifecycleState → Prop where
  /-- `if server != nil { server.Shutdown(nil) }`: read the slot, request
  shutdown of the server found there (if any), move to the lock. -/
  | preShutdown (s : LifecycleState) (t : Bool) :
      s.threads t = .preShutdown →
      LStep s { s with
        threads := Function.update s.threads t .lockAcq
        shutdownReq := (match s.serverSlot with
          | some sid => sid :: s.shutdownReq
          | none => s.shutdownReq)
        reqBy := Function.update s.reqBy t s.serverSlot }
  /-- `mutex.Lock()`, which succeeds only when the mutex is free. -/
  | lockAcq (s : LifecycleState) (t : Bool) :
      s.threads t = .lockAcq → s.mutexHeld = none →
      LStep s { s with
        mutexHeld := some t
        threads := Function.update s.threads t .buildStep }
  /-- `address := getAddress(...); server = &http.Server{Addr: address}` plus
  router construction: allocate a fresh server into the slot. -/
  | build (s : LifecycleState) (t : Bool) :
      s.threads t = .buildStep →
      LStep s { s with
        serverSlot := some s.nextId
        nextId := s.nextId + 1
        serverOf := Function.update s.serverOf t (some s.nextId)
        threads := Function.update s.threads t (.listenCall s.nextId) }
  /-- `ListenAndServe()` enters the accept loop (no `Shutdown` has been
  requested for this server yet). -/
  | listenStart (s : LifecycleState) (t : Bool) (sid : Nat) :
      s.threads t = .listenCall sid → sid ∉ s.shutdownReq →
      LStep s { s with
        listeningSet := sid :: s.listeningSet
        threads := Function.update s.threads t (.listening sid) }
  /-- `ListenAndServe()` returns `ErrServerClosed` immediately because
  `Shutdown` was already requested for this server. -/
  | listenRefused (s : LifecycleState) (t : Bool) (sid : Nat) :
      s.threads t = .listenCall sid → sid ∈ s.shutdownReq →
      LStep s { s with threads := Function.update s.threads t .cleanup }
  /-- A requested `Shutdown` takes effect: the server leaves its accept loop
  and `ListenAndServe` returns. -/
  | serverStopped (s : LifecycleState) (t : Bool) (sid : Nat) :
      s.threads t = .listening sid → sid ∈ s.shutdownReq →
      LStep s { s with
        listeningSet := s.listeningSet.erase sid
        threads := Function.update s.threads t .cleanup }
  /-- `server = nil; mutex.Unlock()`. -/
  | cleanup (s : LifecycleState) (t : Bool) :
      s.threads t = .cleanup →
      LStep s { s with
        serverSlot := none
        mutexHeld := none
        threads := Function.update s.threads t .finished }

/-- Both triggers poised to run, nothing allocated, nothing listening. -/
def initialLifecycleState : LifecycleState where
  serverSlot := none
  mutexHeld := none
  listeningSet := []
  shutdownReq := []
  threads := fun _ => .preShutdown
  nextId := 0
  reqBy := fun _ => none
  serverOf := fun _ => none

/-- States reachable from the initial state. -/
inductive LReach : LifecycleState → Prop where
  | init : LReach initialLifecycleState
  | step {s s' : LifecycleState} : LReach s → LStep s s' → LReach s'

/-- No transition is enabled: every thread is blocked (on the mutex, in an
accept loop with no shutdown requested, or finished). -/
def LTerminal (s : LifecycleState) : Prop := ∀ s', ¬ LStep s s'

/-- The inductive invariant of the lifecycle system. -/
structure LInv (s : LifecycleState) : Prop where
  /-- A thread is in a lock-protected phase iff it holds the mutex. -/
  mutexCrit : ∀ t : Bool, (s.threads t).inCrit = true ↔ s.mutexHeld = some t
  /-- Every listening server is some thread's current accept loop. -/
  listenerExists : ∀ sid ∈ s.listeningSet, ∃ t : Bool, s.threads t = .listening sid
  /-- A thread inside an accept loop has its server in the listening set. -/
  memOfListening : ∀ (t : Bool) (sid : Nat), s.threads t = .listening sid →
    sid ∈ s.listeningSet
  /-- No duplicate listeners. -/
  listenNodup : s.listeningSet.Nodup
  /-- Allocated server ids are below the allocation counter. -/
  serverOfLt : ∀ (t : Bool) (x : Nat), s.serverOf t = some x → x < s.nextId
  /-- Shutdown targets are allocated ids. -/
  reqByLt : ∀ (t : Bool) (x : Nat), s.reqBy t = some x → x < s.nextId
  /-- A thread that has not run its pre-lock shutdown has requested nothing. -/
  preNoReq : ∀ t : Bool, s.threads t = .preShutdown → s.reqBy t = none
  /-- A thread that has not reached its build step has allocated nothing. -/
  preNoServer : ∀ t : Bool,
    s.threads t = .preShutdown ∨ s.threads t = .lockAcq ∨ s.threads t = .buildStep →
    s.serverOf t = none
  /-- The pc's server id agrees with the ghost allocation record. -/
  pcServer : ∀ (t : Bool) (sid : Nat),
    s.threads t = .listenCall sid ∨ s.threads t = .listening sid →
    s.serverOf t = some sid
  /-- A thread past its accept loop owns a server whose shutdown was requested. -/
  donePcServer : ∀ t : Bool, s.threads t = .cleanup ∨ s.threads t = .finished →
    ∃ sid, s.serverOf t = some sid ∧ sid ∈ s.shutdownReq
  /-- A thread never requested shutdown of its own (later-allocated) server. -/
  reqOwn : ∀ (t : Bool) (x y : Nat), s.reqBy t = some x → s.serverOf t = some y → x ≠ y
  /-- Every shutdown request was issued by some thread's pre-lock phase. -/
  reqSource : ∀ x ∈ s.shutdownReq, ∃ t : Bool, s.reqBy t = some x
  /-- A requested server belongs to the *other* thread. -/
  reqOther : ∀ (t : Bool) (x : Nat), s.reqBy t = some x →
    ∃ u : Bool, u ≠ t ∧ s.serverOf u = some x
  /-- A non-nil slot holds the mutex holder's server. -/
  slotHolder : ∀ x : Nat, s.serverSlot = some x →
    ∃ t : Bool, s.mutexHeld = some t ∧ s.serverOf t = some x
  /-- The two threads never each requested shutdown of the other's server. -/
  noCycle : ∀ (t u : Bool) (x y : Nat), t ≠ u →
    s.reqBy t = some x → s.serverOf u = some x →
    s.reqBy u = some y → s.serverOf t = some y → False

theorem LInv_initial : LInv initialLifecycleState := by
  constructor <;> simp [initialLifecycleState, TPC.inCrit]

theorem LInv_step {s s' : LifecycleState} (hs : LInv s) (st : LStep s s') :
    LInv s' := by
  obtain ⟨mc, le, ml, ln, sol, rbl, pnr, pns, pcs, dps, ro, rs, rot, sh, nc⟩ := hs
  cases st with
  | preShutdown t ht =>
    have hncrit : s.mutexHeld ≠ some t := fun h => by
      have := (mc t).mpr h
      rw [ht] at this
      simp [TPC.inCrit] at this
    refine ⟨?_, ?_, ?_, ?_, ?_, ?_, ?_, ?_, ?_, ?_, ?_, ?_, ?_, ?_, ?_⟩ <;> dsimp only
    · intro u
      by_cases hu : u = t
      · subst hu
        simp only [Function.update_same, TPC.inCrit]
        exact ⟨fun h => by simp at h, fun h => absurd h hncrit⟩
      · rw [Function.update_noteq hu]
        exact mc u
    · intro sid hsid
      obtain ⟨u, hu⟩ := le sid hsid
      have hut : u ≠ t := fun h => by rw [h, ht] at hu; cases hu
      exact ⟨u, by rw [Function.update_noteq hut]; exact hu⟩
    · intro u sid hu
      by_cases hut : u = t
      · subst hut; rw [Function.update_same] at hu; cases hu
      · rw [Function.update_noteq hut] at hu; exact ml u sid hu
    · exact ln
    · exact sol
    · intro u x hx
      by_cases hut : u = t
      · subst hut
        rw [Function.update_same] at hx
        obtain ⟨h, _, hsrv⟩ := sh x hx
        exact sol h x hsrv
      · rw [Function.update_noteq hut] at hx; exact rbl u x hx
    · intro u hu
      by_cases hut : u = t
      · subst hut; rw [Function.update_same] at hu; cases hu
      · rw [Function.update_noteq hut] at hu
        rw [Function.update_noteq hut]
        exact pnr u hu
    · intro u hu
      by_cases hut : u = t
      · subst hut; exact pns u (Or.inl ht)
      · rw [Function.update_noteq hut] at hu; exact pns u hu
    · intro u sid hu
      by_cases hut : u = t
      · subst hut; rw [Function.update_same] at hu
        rcases hu with h | h <;> cases h
      · rw [Function.update_noteq hut] at hu; exact pcs u sid hu
    · intro u hu
      by_cases hut : u = t
      · subst hut; rw [Function.update_same] at hu
        rcases hu with h | h <;> cases h
      · rw [Function.update_noteq hut] at hu
        obtain ⟨sid, hsrv, hmem⟩ := dps u hu
        refine ⟨sid, hsrv, ?_⟩
        cases s.serverSlot with
        | none => exact hmem
        | some x0 => exact List.mem_cons_of_mem _ hmem
    · intro u x y hx hy
      by_cases hut : u = t
      · subst hut
        have := pns u (Or.inl ht)
        rw [this] at hy; cases hy
      · rw [Function.update_noteq hut] at hx; exact ro u x y hx hy
    · intro x hx
      cases hslot : s.serverSlot with
      | none =>
        simp only [hslot] at hx
        obtain ⟨u, hu⟩ := rs x hx
        have hut : u ≠ t := fun h => by
          subst h; rw [pnr u ht] at hu; cases hu
        exact ⟨u, by rw [Function.update_noteq hut]; exact hu⟩
      | some x0 =>
        simp only [hslot] at hx
        rcases List.mem_cons.mp hx with h | h
        · subst h
          exact ⟨t, by rw [Function.update_same]⟩
        · obtain ⟨u, hu⟩ := rs x h
          have hut : u ≠ t := fun hh => by
            subst hh; rw [pnr u ht] at hu; cases hu
          exact ⟨u, by rw [Function.update_noteq hut]; exact hu⟩
    · intro u x hx
      by_cases hut : u = t
      · subst hut
        rw [Function.update_same] at hx
        obtain ⟨h, hmxh, hsrv⟩ := sh x hx
        have hht : h ≠ u := fun hh => hncrit (hh ▸ hmxh)
        exact ⟨h, hht, hsrv⟩
      · rw [Function.update_noteq hut] at hx
        exact rot u x hx
    · exact sh
    · intro t' u' x y htu hx hxx hy hyy
      by_cases ht' : t' = t
      · subst ht'
        rw [pns t' (Or.inl ht)] at hyy; cases hyy
      · by_cases hu' : u' = t
        · subst hu'
          rw [pns u' (Or.inl ht)] at hxx; cases hxx
        · rw [Function.update_noteq ht'] at hx
          rw [Function.update_noteq hu'] at hy
          exact nc t' u' x y htu hx hxx hy hyy
  | lockAcq t ht hm =>
    refine ⟨?_, ?_, ?_, ?_, ?_, ?_, ?_, ?_, ?_, ?_, ?_, ?_, ?_, ?_, ?_⟩ <;> dsimp only
    · intro u
      by_cases hu : u = t
      · subst hu
        simp only [Function.update_same, TPC.inCrit]
      · rw [Function.update_noteq hu]
        constructor
        · intro h
          have := (mc u).mp h
          rw [hm] at this
          exact Option.noConfusion this
        · intro h
          exact absurd (Option.some.inj h).symm hu
    · intro sid hsid
      obtain ⟨u, hu⟩ := le sid hsid
      have hut : u ≠ t := fun h => by rw [h, ht] at hu; cases hu
      exact ⟨u, by rw [Function.update_noteq hut]; exact hu⟩
    · intro u sid hu
      by_cases hut : u = t
      · subst hut; rw [Function.update_same] at hu; cases hu
      · rw [Function.update_noteq hut] at hu; exact ml u sid hu
    · exact ln
    · exact sol
    · exact rbl
    · intro u hu
      by_cases hut : u = t
      · subst hut; rw [Function.update_same] at hu; cases hu
      · rw [Function.update_noteq hut] at hu; exact pnr u hu
    · intro u hu
      by_cases hut : u = t
      · subst hut; exact pns u (Or.inr (Or.inl ht))
      · rw [Function.update_noteq hut] at hu; exact pns u hu
    · intro u sid hu
      by_cases hut : u = t
      · subst hut; rw [Function.update_same] at hu
        rcases hu with h | h <;> cases h
      · rw [Function.update_noteq hut] at hu; exact pcs u sid hu
    · intro u hu
      by_cases hut : u = t
      · subst hut; rw [Function.update_same] at hu
        rcases hu with h | h <;> cases h
      · rw [Function.update_noteq hut] at hu; exact dps u hu
    · exact ro
    · exact rs
    · exact rot
    · intro x hx
      obtain ⟨u, hmx, _⟩ := sh x hx
      rw [hm] at hmx; cases hmx
    · exact nc
  | build t ht =>
    have hmx : s.mutexHeld = some t := (mc t).mp (by rw [ht]; rfl)
    refine ⟨?_, ?_, ?_, ?_, ?_, ?_, ?_, ?_, ?_, ?_, ?_, ?_, ?_, ?_, ?_⟩ <;> dsimp only
    · intro u
      by_cases hu : u = t
      · subst hu
        simp [Function.update_same, TPC.inCrit, hmx]
      · rw [Function.update_noteq hu]
        exact mc u
    · intro sid hsid
      obtain ⟨u, hu⟩ := le sid hsid
      have hut : u ≠ t := fun h => by rw [h, ht] at hu; cases hu
      exact ⟨u, by rw [Function.update_noteq hut]; exact hu⟩
    · intro u sid hu
      by_cases hut : u = t
      · subst hut; rw [Function.update_same] at hu; cases hu
      · rw [Function.update_noteq hut] at hu; exact ml u sid hu
    · exact ln
    · intro u x hx
      by_cases hut : u = t
      · subst hut
        rw [Function.update_same] at hx
        have := Option.some.inj hx
        omega
      · rw [Function.update_noteq hut] at hx
        have := sol u x hx
        omega
    · intro u x hx
      have := rbl u x hx
      omega
    · intro u hu
      by_cases hut : u = t
      · subst hut; rw [Function.update_same] at hu; cases hu
      · rw [Function.update_noteq hut] at hu; exact pnr u hu
    · intro u hu
      by_cases hut : u = t
      · subst hut; rw [Function.update_same] at hu
        rcases hu with h | h | h <;> cases h
      · rw [Function.update_noteq hut] at hu
        rw [Function.update_noteq hut]
        exact pns u hu
    · intro u sid hu
      by_cases hut : u = t
      · subst hut
        rw [Function.update_same] at hu
        rw [Function.update_same]
        rcases hu with h | h
        · cases h; rfl
        · cases h
      · rw [Function.update_noteq hut] at hu
        rw [Function.update_noteq hut]
        exact pcs u sid hu
    · intro u hu
      by_cases hut : u = t
      · subst hut; rw [Function.update_same] at hu
        rcases hu with h | h <;> cases h
      · rw [Function.update_noteq hut] at hu
        rw [Function.update_noteq hut]
        exact dps u hu
    · intro u x y hx hy
      by_cases hut : u = t
      · subst hut
        rw [Function.update_same] at hy
        have hxy := Option.some.inj hy
        have := rbl u x hx
        omega
      · rw [Function.update_noteq hut] at hy
        exact ro u x y hx hy
    · exact rs
    · intro u x hx
      obtain ⟨v, hvu, hv⟩ := rot u x hx
      have hvt : v ≠ t := fun h => by
        subst h
        rw [pns v (Or.inr (Or.inr ht))] at hv; cases hv
      exact ⟨v, hvu, by rw [Function.update_noteq hvt]; exact hv⟩
    · intro x hx
      have := Option.some.inj hx
      subst this
      exact ⟨t, hmx, by rw [Function.update_same]⟩
    · intro t' u' x y htu hx hxx hy hyy
      by_cases ht' : t' = t
      · subst ht'
        rw [Function.update_same] at hyy
        have := Option.some.inj hyy
        have := rbl u' y hy
        omega
      · rw [Function.update_noteq ht'] at hyy
        by_cases hu' : u' = t
        · subst hu'
          rw [Function.update_same] at hxx
          have := Option.some.inj hxx
          have := rbl t' x hx
          omega
        · rw [Function.update_noteq hu'] at hxx
          exact nc t' u' x y htu hx hxx hy hyy
  | listenStart t sid ht hreq =>
    have hmx : s.mutexHeld = some t := (mc t).mp (by rw [ht]; rfl)
    have hnotmem : sid ∉ s.listeningSet := by
      intro hmem
      obtain ⟨u, hu⟩ := le sid hmem
      have : (s.threads u).inCrit = true := by rw [hu]; rfl
      have := ((mc u).mp this).symm.trans hmx
      have hut := Option.some.inj this
      rw [hut, ht] at hu
      cases hu
    refine ⟨?_, ?_, ?_, ?_, ?_, ?_, ?_, ?_, ?_, ?_, ?_, ?_, ?_, ?_, ?_⟩ <;> dsimp only
    · intro u
      by_cases hu : u = t
      · subst hu
        simp [Function.update_same, TPC.inCrit, hmx]
      · rw [Function.update_noteq hu]
        exact mc u
    · intro sid' hsid'
      rcases List.mem_cons.mp hsid' with h | h
      · subst h
        exact ⟨t, by rw [Function.update_same]⟩
      · obtain ⟨u, hu⟩ := le sid' h
        have hut : u ≠ t := fun hh => by rw [hh, ht] at hu; cases hu
        exact ⟨u, by rw [Function.update_noteq hut]; exact hu⟩
    · intro u sid' hu
      by_cases hut : u = t
      · subst hut
        rw [Function.update_same] at hu
        cases hu
        exact List.mem_cons_self _ _
      · rw [Function.update_noteq hut] at hu
        exact List.mem_cons_of_mem _ (ml u sid' hu)
    · exact List.nodup_cons.mpr ⟨hnotmem, ln⟩
    · exact sol
    · exact rbl
    · intro u hu
      by_cases hut : u = t
      · subst hut; rw [Function.update_same] at hu; cases hu
      · rw [Function.update_noteq hut] at hu; exact pnr u hu
    · intro u hu
      by_cases hut : u = t
      · subst hut; rw [Function.update_same] at hu
        rcases hu with h | h | h <;> cases h
      · rw [Function.update_noteq hut] at hu; exact pns u hu
    · intro u sid' hu
      by_cases hut : u = t
      · subst hut
        rw [Function.update_same] at hu
        rcases hu with h | h
        · cases h
        · cases h; exact pcs u sid (Or.inl ht)
      · rw [Function.update_noteq hut] at hu
        exact pcs u sid' hu
    · intro u hu
      by_cases hut : u = t
      · subst hut; rw [Function.update_same] at hu
        rcases hu with h | h <;> cases h
      · rw [Function.update_noteq hut] at hu; exact dps u hu
    · exact ro
    · exact rs
    · exact rot
    · exact sh
    · exact nc
  | listenRefused t sid ht hreq =>
    have hmx : s.mutexHeld = some t := (mc t).mp (by rw [ht]; rfl)
    refine ⟨?_, ?_, ?_, ?_, ?_, ?_, ?_, ?_, ?_, ?_, ?_, ?_, ?_, ?_, ?_⟩ <;> dsimp only
    · intro u
      by_cases hu : u = t
      · subst hu
        simp [Function.update_same, TPC.inCrit, hmx]
      · rw [Function.update_noteq hu]
        exact mc u
    · intro sid' hsid'
      obtain ⟨u, hu⟩ := le sid' hsid'
      have hut : u ≠ t := fun h => by rw [h, ht] at hu; cases hu
      exact ⟨u, by rw [Function.update_noteq hut]; exact hu⟩
    · intro u sid' hu
      by_cases hut : u = t
      · subst hut; rw [Function.update_same] at hu; cases hu
      · rw [Function.update_noteq hut] at hu; exact ml u sid' hu
    · exact ln
    · exact sol
    · exact rbl
    · intro u hu
      by_cases hut : u = t
      · subst hut; rw [Function.update_same] at hu; cases hu
      · rw [Function.update_noteq hut] at hu; exact pnr u hu
    · intro u hu
      by_cases hut : u = t
      · subst hut; rw [Function.update_same] at hu
        rcases hu with h | h | h <;> cases h
      · rw [Function.update_noteq hut] at hu; exact pns u hu
    · intro u sid' hu
      by_cases hut : u = t
      · subst hut; rw [Function.update_same] at hu
        rcases hu with h | h <;> cases h
      · rw [Function.update_noteq hut] at hu; exact pcs u sid' hu
    · intro u hu
      by_cases hut : u = t
      · subst hut
        exact ⟨sid, pcs u sid (Or.inl ht), hreq⟩
      · rw [Function.update_noteq hut] at hu; exact dps u hu
    · exact ro
    · exact rs
    · exact rot
    · exact sh
    · exact nc
  | serverStopped t sid ht hreq =>
    have hmx : s.mutexHeld = some t := (mc t).mp (by rw [ht]; rfl)
    refine ⟨?_, ?_, ?_, ?_, ?_, ?_, ?_, ?_, ?_, ?_, ?_, ?_, ?_, ?_, ?_⟩ <;> dsimp only
    · intro u
      by_cases hu : u = t
      · subst hu
        simp [Function.update_same, TPC.inCrit, hmx]
      · rw [Function.update_noteq hu]
        exact mc u
    · intro sid' hsid'
      have hsid'mem : sid' ∈ s.listeningSet := List.mem_of_mem_erase hsid'
      obtain ⟨u, hu⟩ := le sid' hsid'mem
      have hut : u ≠ t := by
        intro hh
        subst hh
        rw [ht] at hu
        cases hu
        exact (List.Nodup.not_mem_erase ln) hsid'
      exact ⟨u, by rw [Function.update_noteq hut]; exact hu⟩
    · intro u sid' hu
      by_cases hut : u = t
      · subst hut; rw [Function.update_same] at hu; cases hu
      · rw [Function.update_noteq hut] at hu
        have hmem := ml u sid' hu
        have hne : sid' ≠ sid := by
          intro hh
          subst hh
          have hcrit : (s.threads u).inCrit = true := by rw [hu]; rfl
          have := ((mc u).mp hcrit).symm.trans hmx
          have := Option.some.inj this
          rw [this, ht] at hu
          exact hut (by rw [this])
        exact (List.mem_erase_of_ne hne).mpr hmem
    · exact List.Nodup.erase _ ln
    · exact sol
    · exact rbl
    · intro u hu
      by_cases hut : u = t
      · subst hut; rw [Function.update_same] at hu; cases hu
      · rw [Function.update_noteq hut] at hu; exact pnr u hu
    · intro u hu
      by_cases hut : u = t
      · subst hut; rw [Function.update_same] at hu
        rcases hu with h | h | h <;> cases h
      · rw [Function.update_noteq hut] at hu; exact pns u hu
    · intro u sid' hu
      by_cases hut : u = t
      · subst hut; rw [Function.update_same] at hu
        rcases hu with h | h <;> cases h
      · rw [Function.update_noteq hut] at hu; exact pcs u sid' hu
    · intro u hu
      by_cases hut : u = t
      · subst hut
        exact ⟨sid, pcs u sid (Or.inr ht), hreq⟩
      · rw [Function.update_noteq hut] at hu; exact dps u hu
    · exact ro
    · exact rs
    · exact rot
    · exact sh
    · exact nc
  | cleanup t ht =>
    have hmx : s.mutexHeld = some t := (mc t).mp (by rw [ht]; rfl)
    refine ⟨?_, ?_, ?_, ?_, ?_, ?_, ?_, ?_, ?_, ?_, ?_, ?_, ?_, ?_, ?_⟩ <;> dsimp only
    · intro u
      by_cases hu : u = t
      · subst hu
        simp [Function.update_same, TPC.inCrit]
      · rw [Function.update_noteq hu]
        constructor
        · intro h
          have := ((mc u).mp h).symm.trans hmx
          exact absurd (Option.some.inj this).symm (fun hh => hu hh.symm)
        · intro h; cases h
    · intro sid hsid
      obtain ⟨u, hu⟩ := le sid hsid
      have hut : u ≠ t := fun h => by rw [h, ht] at hu; cases hu
      exact ⟨u, by rw [Function.update_noteq hut]; exact hu⟩
    · intro u sid hu
      by_cases hut : u = t
      · subst hut; rw [Function.update_same] at hu; cases hu
      · rw [Function.update_noteq hut] at hu; exact ml u sid hu
    · exact ln
    · exact sol
    · exact rbl
    · intro u hu
      by_cases hut : u = t
      · subst hut; rw [Function.update_same] at hu; cases hu
      · rw [Function.update_noteq hut] at hu; exact pnr u hu
    · intro u hu
      by_cases hut : u = t
      · subst hut; rw [Function.update_same] at hu
        rcases hu with h | h | h <;> cases h
      · rw [Function.update_noteq hut] at hu; exact pns u hu
    · intro u sid hu
      by_cases hut : u = t
      · subst hut; rw [Function.update_same] at hu
        rcases hu with h | h <;> cases h
      · rw [Function.update_noteq hut] at hu; exact pcs u sid hu
    · intro u hu
      by_cases hut : u = t
      · subst hut
        exact dps u (Or.inl ht)
      · rw [Function.update_noteq hut] at hu; exact dps u hu
    · exact ro
    · exact rs
    · exact rot
    · intro x hx; cases hx
    · exact nc

/-- The invariant holds in every reachable state. -/
theorem LInv_reach {s : LifecycleState} (h : LReach s) : LInv s := by
  induction h with
  | init => exact LInv_initial
  | step _ st ih => exact LInv_step ih st

/-- Any two listening servers coincide: each listener is some thread's
accept loop, each such thread holds the mutex, and the mutex has one
holder. -/
theorem listening_eq {s : LifecycleState} (hs : LInv s) :
    ∀ a ∈ s.listeningSet, ∀ b ∈ s.listeningSet, a = b := by
  intro a ha b hb
  obtain ⟨ta, hta⟩ := hs.listenerExists a ha
  obtain ⟨tb, htb⟩ := hs.listenerExists b hb
  have hca : (s.threads ta).inCrit = true := by rw [hta]; rfl
  have hcb : (s.threads tb).inCrit = true := by rw [htb]; rfl
  have hma := (hs.mutexCrit ta).mp hca
  have hmb := (hs.mutexCrit tb).mp hcb
  have htab : ta = tb := Option.some.inj (hma.symm.trans hmb)
  subst htab
  rw [hta] at htb
  exact TPC.listening.inj htb

/-- Safety: never more than one server is inside its accept loop. -/
theorem listening_length_le_one {s : LifecycleState} (hs : LInv s) :
    s.listeningSet.length ≤ 1 := by
  have heq := listening_eq hs
  have hnd := hs.listenNodup
  cases hl : s.listeningSet with
  | nil => simp
  | cons a tl =>
    cases tl with
    | nil => simp
    | cons b tl' =>
      exfalso
      rw [hl] at heq hnd
      have hab : a = b :=
        heq a (List.mem_cons_self _ _) b
          (List.mem_cons_of_mem _ (List.mem_cons_self _ _))
      have := List.nodup_cons.mp hnd
      exact this.1 (hab ▸ List.mem_cons_self _ _)

/-- In a terminal state every thread is blocked on the mutex, parked in an
accept loop with no shutdown requested, or finished. -/
theorem LTerminal_shape {s : LifecycleState} (hterm : LTerminal s) (t : Bool) :
    (s.threads t = .lockAcq ∧ s.mutexHeld ≠ none) ∨
    (∃ sid, s.threads t = .listening sid ∧ sid ∉ s.shutdownReq) ∨
    s.threads t = .finished := by
  cases hpc : s.threads t with
  | preShutdown => exact absurd (LStep.preShutdown _ t hpc) (hterm _)
  | lockAcq =>
    refine Or.inl ⟨rfl, fun hm => ?_⟩
    exact (hterm _) (LStep.lockAcq _ t hpc hm)
  | buildStep => exact absurd (LStep.build _ t hpc) (hterm _)
  | listenCall sid =>
    by_cases hmem : sid ∈ s.shutdownReq
    · exact absurd (LStep.listenRefused _ t sid hpc hmem) (hterm _)
    · exact absurd (LStep.listenStart _ t sid hpc hmem) (hterm _)
  | listening sid =>
    exact Or.inr (Or.inl ⟨sid, rfl,
      fun hmem => (hterm _) (LStep.serverStopped _ t sid hpc hmem)⟩)
  | cleanup => exact absurd (LStep.cleanup _ t hpc) (hterm _)
  | finished => exact Or.inr (Or.inr rfl)

/-- The two triggers cannot both have finished: each finishing requires its
server's shutdown to have been requested, requests only come from the other
thread's pre-lock phase, and mutual requests are impossible (`noCycle`). -/
theorem not_both_finished {s : LifecycleState} (hs : LInv s) :
    ¬ (s.threads false = .finished ∧ s.threads true = .finished) := by
  rintro ⟨h0, h1⟩
  obtain ⟨s0, hs0, hr0⟩ := hs.donePcServer false (Or.inr h0)
  obtain ⟨s1, hs1, hr1⟩ := hs.donePcServer true (Or.inr h1)
  obtain ⟨t0, ht0⟩ := hs.reqSource s0 hr0
  obtain ⟨t1, ht1⟩ := hs.reqSource s1 hr1
  have ht0true : t0 = true := by
    cases t0 with
    | false => exact absurd rfl (hs.reqOwn false s0 s0 ht0 hs0)
    | true => rfl
  have ht1false : t1 = false := by
    cases t1 with
    | true => exact absurd rfl (hs.reqOwn true s1 s1 ht1 hs1)
    | false => rfl
  subst ht0true
  subst ht1false
  exact hs.noCycle true false s0 s1 (by simp) ht0 hs0 ht1 hs1

/-- If neither thread is inside an accept loop and not both are finished,
the state cannot be terminal: some mutex-related step is enabled.  (Helper
for the terminal-state analysis.) -/
theorem mutexHolder_inCrit {s : LifecycleState} (hs : LInv s) {u : Bool}
    (hm : s.mutexHeld = some u) : (s.threads u).inCrit = true :=
  (hs.mutexCrit u).mpr hm

/-! ## Supporting lemmas about the string operations -/

theorem collapse_cons_shape (x : Char) (l : List Char) :
    ∃ t, collapseDoubleSlash (x :: l) = x :: t := by
  cases l with
  | nil => exact ⟨[], rfl⟩
  | cons y l' =>
    by_cases h : x = '/' ∧ y = '/'
    · refine ⟨collapseDoubleSlash l', ?_⟩
      rw [collapseDoubleSlash, if_pos h, h.1]
    · exact ⟨collapseDoubleSlash (y :: l'), by rw [collapseDoubleSlash, if_neg h]⟩

theorem hasTripleSlash_tail (c : Char) (l : List Char)
    (h : hasTripleSlash (c :: l) = false) : hasTripleSlash l = false := by
  match l with
  | [] => rfl
  | [x] => rfl
  | c2 :: c3 :: r =>
    rw [hasTripleSlash] at h
    exact (Bool.or_eq_false_iff.mp h).2

theorem hasDoubleSlash_cons_cons (a b : Char) (l : List Char) :
    hasDoubleSlash (a :: b :: l) = ((a == '/' && b == '/') || hasDoubleSlash (b :: l)) := by
  rw [hasDoubleSlash]

/-- One pass of `strings.Replace(s, "//", "/", -1)` leaves no `"//"` as long
as the input has no run of three slashes. -/
theorem collapse_no_double :
    ∀ cs : List Char, hasTripleSlash cs = false →
      hasDoubleSlash (collapseDoubleSlash cs) = false := by
  intro cs
  induction cs using collapseDoubleSlash.induct with
  | case1 => intro _; rfl
  | case2 c => intro _; rfl
  | case3 c1 c2 rest h ih =>
    intro h3
    obtain ⟨hc1, hc2⟩ := h
    subst hc1; subst hc2
    rw [collapseDoubleSlash, if_pos ⟨rfl, rfl⟩]
    cases rest with
    | nil => rfl
    | cons r rest' =>
      rw [hasTripleSlash] at h3
      have h3' := Bool.or_eq_false_iff.mp h3
      have hr : r ≠ '/' := by
        intro hh
        subst hh
        simp at h3'
      have h3rest : hasTripleSlash (r :: rest') = false :=
        hasTripleSlash_tail _ _ h3'.2
      obtain ⟨t, htl⟩ := collapse_cons_shape r rest'
      rw [htl]
      rw [hasDoubleSlash_cons_cons]
      have hdbl := ih h3rest
      rw [htl] at hdbl
      rw [hdbl]
      simp [hr]
  | case4 c1 c2 rest h ih =>
    intro h3
    rw [collapseDoubleSlash, if_neg h]
    have h3rest : hasTripleSlash (c2 :: rest) = false :=
      hasTripleSlash_tail _ _ h3
    obtain ⟨t, htl⟩ := collapse_cons_shape c2 rest
    rw [htl]
    rw [hasDoubleSlash_cons_cons]
    have hdbl := ih h3rest
    rw [htl] at hdbl
    rw [hdbl]
    have hne : (c1 == '/' && c2 == '/') = false := by
      by_cases h1 : c1 = '/'
      · by_cases h2 : c2 = '/'
        · exact absurd ⟨h1, h2⟩ h
        · simp [beq_iff_eq, h2]
      · simp [beq_iff_eq, h1]
    simp [hne]

theorem containsSeq_of_isPrefixOf {pat cs : List Char}
    (h : pat.isPrefixOf cs = true) : containsSeq pat cs = true := by
  cases cs with
  | nil =>
    rw [containsSeq]
    cases pat with
    | nil => rfl
    | cons p ps => simp [List.isPrefixOf] at h
  | cons c rest => simp [containsSeq, h]

theorem serviceActionSubmatch_fst_prefix {a : String} {pr : String × String}
    (h : serviceActionSubmatch a = some pr) : pr.1.toList <+: a.toList := by
  rw [serviceActionSubmatch] at h
  cases hk : (midDotPositions a.toList).getLast? with
  | none => rw [hk] at h; cases h
  | some k =>
    rw [hk] at h
    cases h
    exact List.take_prefix k a.toList

/-! ## Claims -/

/-- C1 (counterexample).  The claim states that `shouldInclude` with
whitelist `["math.*"]` returns `true` iff the action's service segment is
exactly `"math"`, and that a service-wildcard pattern that fails on the
service segment matches by no other rule.  The action `"mymath.add"`
refutes it: its service segment is `"mymath"`, yet `shouldInclude` returns
`true`, because after the service-wildcard rule fails the loop still tries
the pattern as a dynamic regular expression, and the unanchored
`"math.*"` regex matches the substring `"math.add"`. -/
theorem c1_counterexample :
    shouldInclude mathStarOracle ["math.*"] "mymath.add" = true ∧
    serviceActionSubmatch "mymath.add" = some ("mymath", "add") ∧
    ("mymath" : String) ≠ "math" :=
  ⟨by decide, by decide, by decide⟩

/-- C1 (amended).  For any embedding `rx` of the dynamic regex fallback that
is faithful on the pattern `"math.*"` (Go's compiled `"math.*"` matches a
subject iff it contains `"math"` as a substring), `shouldInclude` with
whitelist `["math.*"]` returns `true` iff the action contains `"math"` as a
substring.  In particular every action whose service segment is exactly
`"math"` matches, but the regex-fallback rule additionally matches actions
such as `"mymath.add"`. -/
theorem c1_mathStar_contains (rx : String → String → Option Bool)
    (hrx : ∀ a : String, rx "math.*" a = some (containsSeq "math".toList a.toList))
    (action : String) :
    shouldInclude rx ["math.*"] action = containsSeq "math".toList action.toList := by
  have h1 : actionWildCardSubmatch "math.*" = some "math" := rfl
  have h2 : serviceWildCardSubmatch "math.*" = none := rfl
  have e1 : (("math.*" : String) == "**") = false := by decide
  have e2 : (("math.*" : String) == "*.*") = false := by decide
  have e3 : (("math" : String) != "") = true := by decide
  simp only [shouldInclude, List.any_cons, List.any_nil, Bool.or_false,
    itemMatchesAction, h1, h2, regexFallback, hrx, e1, e2, e3, Bool.false_or,
    Bool.true_and]
  cases hsa : serviceActionSubmatch action with
  | none => simp
  | some pr =>
    by_cases hp : pr.1 = "math"
    · have hpre := serviceActionSubmatch_fst_prefix hsa
      rw [hp] at hpre
      have hcont : containsSeq "math".toList action.toList = true :=
        containsSeq_of_isPrefixOf (List.isPrefixOf_iff_prefix.mpr hpre)
      have hcont2 : containsSeq ['m', 'a', 't', 'h'] action.data = true := hcont
      simp [hcont2, hp]
    · simp [beq_iff_eq, hp]

/-- C1 (witness for the amended theorem, at the concrete oracle and the
counterexample action). -/
theorem c1_mathStar_contains_witness :
    shouldInclude mathStarOracle ["math.*"] "mymath.add" =
      containsSeq "math".toList "mymath.add".toList :=
  c1_mathStar_contains mathStarOracle (fun a => by simp [mathStarOracle]) "mymath.add"

/-- C2 (code bug).  The claim — and §4.4 of the specification — require that
every request whose method is not in the handler's accepted set gets the 500
JSON error envelope naming the accepted methods.  The code only sends that
envelope from the `default` arm of the method switch: for a standard method
that is merely not accepted (here POST against the `"GET users"` alias,
whose accepted set is exactly `{GET}`), the matching switch arm's `if` guard
is false and `ServeHTTP` returns without writing anything (`none`; the
net/http stack then emits its implicit empty 200).  A non-standard method
(PATCH) does receive the 500 envelope, confirming the envelope machinery
exists and the uniform-error design is the intent. -/
theorem c2_method_mismatch_writes_nothing :
    actionHandler.ServeHTTP ⟨"/", "GET users", "users.list"⟩
      (fun _ _ => .value "r") (.value "p") "POST" = none ∧
    actionHandler.acceptedMethods ⟨"/", "GET users", "users.list"⟩ = ["GET"] ∧
    actionHandler.ServeHTTP ⟨"/", "GET users", "users.list"⟩
      (fun _ _ => .value "r") (.value "p") "PATCH" =
      some ⟨500, .err "Invalid HTTP Method - accepted methods: [GET]"⟩ :=
  ⟨by decide, by decide, by decide⟩

/-- C3 (counterexample).  The claim states that for *every* route path,
alias and action the derived pattern contains no `"//"`.  Route path `"//"`
with action `"math.add"` refutes it: the joined path is `"///math/add"`,
and the single left-to-right `strings.Replace` pass turns it into
`"//math/add"`, which still contains a doubled separator. -/
theorem c3_counterexample :
    actionHandler.pattern ⟨"//", "", "math.add"⟩ = .ok "//math/add" ∧
    hasDoubleSlash "//math/add".toList = true :=
  ⟨rfl, rfl⟩

/-- C3 (amended).  The single replacement pass removes every doubled
separator provided the joined path (route path ++ `"/"` ++ alias path or
dotted action path) contains no *three* consecutive separators; under that
proviso the derived pattern contains no `"//"`.  In particular route path
`"/"` with action `"math.add"` yields `"/math/add"`. -/
theorem c3_pattern_no_double_slash :
    (∀ (handler : actionHandler) (fp : String),
      handler.patternFullPath = .ok fp →
      hasTripleSlash fp.toList = false →
      handler.pattern = .ok ⟨collapseDoubleSlash fp.toList⟩ ∧
        hasDoubleSlash (collapseDoubleSlash fp.toList) = false) ∧
    actionHandler.pattern ⟨"/", "", "math.add"⟩ = .ok "/math/add" := by
  constructor
  · intro handler fp hfp h3
    constructor
    · rw [actionHandler.pattern, hfp]
    · exact collapse_no_double fp.toList h3
  · rfl

/-- C3 (witness): the amended theorem applied at route path `"/"`, no alias,
action `"math.add"` (joined path `"//math/add"`, no triple separator). -/
theorem c3_pattern_no_double_slash_witness :
    actionHandler.pattern ⟨"/", "", "math.add"⟩ =
      .ok ⟨collapseDoubleSlash "//math/add".toList⟩ ∧
    hasDoubleSlash (collapseDoubleSlash "//math/add".toList) = false :=
  c3_pattern_no_double_slash.1 ⟨"/", "", "math.add"⟩ "//math/add" rfl rfl

/-- C4 (counterexample).  The claim states that *both* path derivation and
accepted-method derivation reject an alias of three or more tokens.  Only
`aliasPath` panics; `acceptedMethods` on the three-token alias
`"GET POST users"` neither fails nor truncates — it falls through to the
full method set. -/
theorem c4_counterexample :
    actionHandler.acceptedMethods ⟨"/", "GET POST users", "users.list"⟩ =
      ["GET", "POST", "PUT", "DELETE"] := by
  decide

/-- C4 (amended).  For every alias that splits into three or more
whitespace-separated tokens, path derivation is a fatal configuration error
(`aliasPath` panics with the `"Invalid alias format!"` message), while
accepted-method derivation does not reject it: it ignores the malformed
alias and returns the full method set — no silent truncation to a
single-method set occurs. -/
theorem c4_triple_token_alias (routePath aliasString action : String)
    (hne : aliasString ≠ "")
    (hlen : 3 ≤ (splitAlias aliasString).length) :
    actionHandler.aliasPath ⟨routePath, aliasString, action⟩ =
      .error ("Invalid alias format! -> " ++ aliasString) ∧
    actionHandler.acceptedMethods ⟨routePath, aliasString, action⟩ =
      ["GET", "POST", "PUT", "DELETE"] := by
  have hne1 : ¬(splitAlias aliasString).length = 1 := by omega
  have hne2 : ¬(splitAlias aliasString).length = 2 := by omega
  constructor
  · simp [actionHandler.aliasPath, hne, hne1, hne2]
  · simp [actionHandler.acceptedMethods, hne, hne2]

/-- C4 (witness): the amended theorem at the three-token alias
`"GET POST users"`. -/
theorem c4_triple_token_alias_witness :
    actionHandler.aliasPath ⟨"/", "GET POST users", "users.list"⟩ =
      .error ("Invalid alias format! -> " ++ "GET POST users") ∧
    actionHandler.acceptedMethods ⟨"/", "GET POST users", "users.list"⟩ =
      ["GET", "POST", "PUT", "DELETE"] :=
  c4_triple_token_alias "/" "GET POST users" "users.list" (by decide) (by decide)

/-- The spec's Restrict example route: `mappingPolicy = "restrict"` with the
alias map `{"GET users": "users.list"}`. -/
def restrictUsersRoute : Route :=
  { path := "/"
    mappingPolicy := some "restrict"
    aliases := [("GET users", "users.list")]
    whitelist := none }

/-- C5 (confirmed).  Under `mappingPolicy = "restrict"` with alias map
`{"GET users": "users.list"}`, `createActionHandlers` binds exactly the
occurrences of `users.list` (so any whitelisted action without an alias
entry, such as `users.create`, is dropped); on the spec's action list the
result is the single `users.list` handler, and its accepted-method set is
exactly `{GET}`. -/
theorem c5_restrict_binding :
    (∀ actions : List String,
      (createActionHandlers restrictUsersRoute actions).map actionHandler.action =
        actions.filter fun a => a == "users.list") ∧
    createActionHandlers restrictUsersRoute ["users.list", "users.create"] =
      [⟨"/", "GET users", "users.list"⟩] ∧
    actionHandler.acceptedMethods ⟨"/", "GET users", "users.list"⟩ = ["GET"] := by
  refine ⟨?_, by decide, by decide⟩
  intro actions
  induction actions with
  | nil => rfl
  | cons a tl ih =>
    by_cases ha : a = "users.list"
    · subst ha
      have hcons : createActionHandlers restrictUsersRoute ("users.list" :: tl) =
          ⟨"/", "GET users", "users.list"⟩ ::
            createActionHandlers restrictUsersRoute tl := rfl
      rw [hcons, List.map_cons, ih, List.filter_cons]
      simp
    · have hbeq : (a == "users.list") = false := by simp [ha]
      have hskip : createActionHandlers restrictUsersRoute (a :: tl) =
          createActionHandlers restrictUsersRoute tl := by
        simp [createActionHandlers, List.filterMap_cons, List.lookup,
          invertStringMap, restrictUsersRoute, hbeq]
      rw [hskip, ih, List.filter_cons, if_neg (by simp [hbeq])]

/-- C6 (confirmed).  Every response the gateway layer writes goes through
`sendReponse`: its status is exactly 500 when the payload is an error and
exactly 200 otherwise, and consequently every response `ServeHTTP` writes
(success result, error result of the RPC call or of parameter parsing, or
the invalid-method envelope) has status 200 or 500 and no other. -/
theorem c6_status_binary :
    (∀ result : Payload, (sendReponse result).status =
      if result.IsError then errorStatusCode else succesStatusCode) ∧
    (∀ (handler : actionHandler) (call : String → Payload → Payload)
       (params : Payload) (method : String) (r : HttpResponse),
      handler.ServeHTTP call params method = some r →
      (r.status = if r.body.IsError then 500 else 200) ∧
        (r.status = 200 ∨ r.status = 500)) := by
  constructor
  · intro result; rfl
  · intro handler call params method r hr
    have hgen : ∀ p : Payload, r = sendReponse p →
        (r.status = if r.body.IsError then 500 else 200) ∧
          (r.status = 200 ∨ r.status = 500) := by
      rintro p rfl
      cases p <;>
        simp [sendReponse, Payload.IsError, errorStatusCode, succesStatusCode]
    simp only [actionHandler.ServeHTTP, invalidHttpMethodError] at hr
    repeat' split at hr
    all_goals
      first
        | exact hgen _ (Option.some.inj hr).symm
        | cases hr

/-- C6 (witness): the theorem applied at a PATCH request against a GET-only
alias handler, whose response is the 500 invalid-method envelope. -/
theorem c6_status_binary_witness :
    ((sendReponse (Payload.err "boom")).status =
      if (Payload.err "boom").IsError then errorStatusCode else succesStatusCode) ∧
    (((⟨500, .err "Invalid HTTP Method - accepted methods: [GET]"⟩ : HttpResponse).status =
      if (HttpResponse.body ⟨500, .err "Invalid HTTP Method - accepted methods: [GET]"⟩).IsError
      then 500 else 200) ∧
      ((⟨500, .err "Invalid HTTP Method - accepted methods: [GET]"⟩ : HttpResponse).status = 200 ∨
       (⟨500, .err "Invalid HTTP Method - accepted methods: [GET]"⟩ : HttpResponse).status = 500)) :=
  ⟨c6_status_binary.1 (Payload.err "boom"),
   c6_status_binary.2 ⟨"/", "GET users", "users.list"⟩ (fun _ _ => .value "r")
     (.value "p") "PATCH" ⟨500, .err "Invalid HTTP Method - accepted methods: [GET]"⟩
     (by decide)⟩

/-- `filterActions` over the empty service listing produces no handlers,
whatever the route configuration. -/
theorem filterActions_empty_services (rx : String → String → Option Bool)
    (routes : List Route) :
    filterActions rx ⟨routes⟩ [] = [] := by
  induction routes with
  | nil => rfl
  | cons r tl ih =>
    simp only [filterActions, List.map_cons, List.map_nil, List.flatten_cons,
      List.flatten_nil] at ih ⊢
    simp [createActionHandlers, ih]

/-- C7 (confirmed).  When the registry query returns an error payload,
`fetchServices` logs and degrades to the empty listing rather than failing,
and `filterActions` over that empty listing produces zero bound handlers for
every route configuration. -/
theorem c7_registry_error_degrades (rx : String → String → Option Bool)
    (settings : GatewaySettings) (e : String) :
    fetchServices (.error e) = [] ∧
    filterActions rx settings (fetchServices (.error e)) = [] := by
  obtain ⟨routes⟩ := settings
  exact ⟨rfl, filterActions_empty_services rx routes⟩

/-- C8 (confirmed).  In the two-trigger lifecycle model of `resetHandlers`:
in every reachable state at most one server is inside its accept loop on the
(single) listen address — a server listens only while its thread holds the
rebuild mutex, and the previous server has left its accept loop (shut down)
before the mutex is released to the next builder; and in every reachable
state where the system has quiesced (no transition enabled), exactly one
server survives, still listening. -/
theorem c8_single_listener (s : LifecycleState) (hreach : LReach s) :
    s.listeningSet.length ≤ 1 ∧
      (LTerminal s → s.listeningSet.length = 1) := by
  have hinv := LInv_reach hreach
  have hle := listening_length_le_one hinv
  refine ⟨hle, fun hterm => ?_⟩
  have hlisten : ∀ (t : Bool) (sid : Nat), s.threads t = .listening sid →
      s.listeningSet.length = 1 := by
    intro t sid hpc
    have hmem := hinv.memOfListening t sid hpc
    have hpos := List.length_pos_of_mem hmem
    omega
  have hmutex : (s.threads false).inCrit = false →
      (s.threads true).inCrit = false → s.mutexHeld = none := by
    intro hf ht
    cases hm : s.mutexHeld with
    | none => rfl
    | some u =>
      have hc := mutexHolder_inCrit hinv hm
      cases u
      · rw [hf] at hc; cases hc
      · rw [ht] at hc; cases hc
  rcases LTerminal_shape hterm false with ⟨hpc0, hm0⟩ | ⟨sid0, hpc0, _⟩ | hpc0
  · rcases LTerminal_shape hterm true with ⟨hpc1, _⟩ | ⟨sid1, hpc1, _⟩ | hpc1
    · exact absurd (hmutex (by rw [hpc0]; rfl) (by rw [hpc1]; rfl)) hm0
    · exact hlisten true sid1 hpc1
    · exact absurd (hmutex (by rw [hpc0]; rfl) (by rw [hpc1]; rfl)) hm0
  · exact hlisten false sid0 hpc0
  · rcases LTerminal_shape hterm true with ⟨hpc1, hm1⟩ | ⟨sid1, hpc1, _⟩ | hpc1
    · exact absurd (hmutex (by rw [hpc0]; rfl) (by rw [hpc1]; rfl)) hm1
    · exact hlisten true sid1 hpc1
    · exact absurd ⟨hpc0, hpc1⟩ (not_both_finished hinv)

/-- C8 (witness): the theorem at the initial state. -/
theorem c8_single_listener_witness :
    initialLifecycleState.listeningSet.length ≤ 1 ∧
      (LTerminal initialLifecycleState →
        initialLifecycleState.listeningSet.length = 1) :=
  c8_single_listener initialLifecycleState LReach.init

/-- C9 (confirmed).  For an alias of at most two tokens, `acceptedMethods`
returns either exactly the singleton of the upper-cased first token — when
the alias is non-empty, has exactly two tokens, and that token upper-cases
to one of GET/POST/PUT/DELETE — or exactly the full set
`{GET, POST, PUT, DELETE}` in every other case, including a two-token alias
whose first token is not a valid method.  Both outcomes are non-empty. -/
theorem c9_acceptedMethods_shape (routePath aliasString action : String)
    (_hlen : (splitAlias aliasString).length ≤ 2) :
    ((aliasString ≠ "" ∧ (splitAlias aliasString).length = 2 ∧
        validMethod (goToUpper ((splitAlias aliasString).headD "")) = true) →
      actionHandler.acceptedMethods ⟨routePath, aliasString, action⟩ =
        [goToUpper ((splitAlias aliasString).headD "")] ∧
      validMethod (goToUpper ((splitAlias aliasString).headD "")) = true) ∧
    (¬(aliasString ≠ "" ∧ (splitAlias aliasString).length = 2 ∧
        validMethod (goToUpper ((splitAlias aliasString).headD "")) = true) →
      actionHandler.acceptedMethods ⟨routePath, aliasString, action⟩ =
        ["GET", "POST", "PUT", "DELETE"]) := by
  constructor
  · rintro ⟨hne, hl2, hvm⟩
    rw [actionHandler.acceptedMethods, if_pos hne, if_pos ⟨hl2, hvm⟩]
    exact ⟨rfl, hvm⟩
  · intro hnot
    rw [actionHandler.acceptedMethods]
    by_cases hne : aliasString ≠ ""
    · rw [if_pos hne]
      rw [if_neg]
      intro ⟨hl2, hvm⟩
      exact hnot ⟨hne, hl2, hvm⟩
    · rw [if_neg hne]

/-- C9 (witness): a lower-case two-token alias yields the singleton POST
set; noted together with the theorem's other hypotheses discharged at that
input. -/
theorem c9_acceptedMethods_shape_witness :
    actionHandler.acceptedMethods ⟨"/", "post items", "items.create"⟩ =
      [goToUpper ((splitAlias "post items").headD "")] ∧
    validMethod (goToUpper ((splitAlias "post items").headD "")) = true :=
  (c9_acceptedMethods_shape "/" "post items" "items.create" (by decide)).1
    ⟨by decide, by decide, by decide⟩

/-- C10 (confirmed).  Only the exact lowercase policy string `"restrict"`
drops unaliased actions: for every route whose `mappingPolicy` (defaulted to
`"all"` when the key is absent or of the wrong type) is anything other than
`"restrict"`, `createActionHandlers` binds every action it is given, aliased
or not, in order. -/
theorem c10_only_restrict_drops (route : Route) (actions : List String)
    (hpol : route.mappingPolicy.getD "all" ≠ "restrict") :
    (createActionHandlers route actions).map actionHandler.action = actions := by
  induction actions with
  | nil => rfl
  | cons a tl ih =>
    simp only [createActionHandlers, List.filterMap_cons] at ih ⊢
    cases hlk : List.lookup a (invertStringMap route.aliases) with
    | none => simpa [hlk, hpol] using ih
    | some al => simpa [hlk] using ih

/-- C10 (witness): the capitalised policy string `"Restrict"` does not
drop the unaliased action `users.create`. -/
theorem c10_only_restrict_drops_witness :
    (createActionHandlers
      ⟨"/", some "Restrict", [("GET users", "users.list")], none⟩
      ["users.list", "users.create"]).map actionHandler.action =
      ["users.list", "users.create"] :=
  c10_only_restrict_drops
    ⟨"/", some "Restrict", [("GET users", "users.list")], none⟩
    ["users.list", "users.create"] (by decide)

end Gateway
